import Mathlib

/-!
Verification development for the reference-resolution engine of dbl-utils
(src/resolve-refs.ts) together with the collaborator functions it uses
(deepMerge from src/object-mutation.ts and unflatten from src/flat.ts).

JSON-like runtime values are modelled by the inductive type Json below.
JavaScript objects are association lists in insertion order (the engine's
inputs come from JSON literals, so keys are unique and non-numeric; the
JS reordering of integer-like keys is not modelled).  Numbers are Int:
every number in the engine's tests and examples is an integer and the
engine performs no arithmetic.  JSON.parse(JSON.stringify(x)) on such a
value is the identity, so the clone steps of the source are identities
here.  The source's resolver can loop forever (a self-referential schema,
or a non-converging deferred block); the embedding therefore takes an
explicit fuel parameter and returns none when the fuel runs out.
-/

namespace DblUtils

inductive Json where
  | null
  | bool (b : Bool)
  | num (n : Int)
  | str (s : String)
  | arr (elems : List Json)
  | obj (fields : List (String × Json))

/-- lookupField models reading a property of a JS object: the first
binding of the key, or none when the key is absent (undefined). -/
def lookupField : List (String × Json) → String → Option Json
  | [], _ => none
  | (k, v) :: rest, key => if k = key then some v else lookupField rest key

/-- setKey models the JS assignment target[key] = v: an existing key keeps
its position and gets the new value, a new key is appended at the end. -/
def setKey : List (String × Json) → String → Json → List (String × Json)
  | [], key, v => [(key, v)]
  | (k, w) :: rest, key, v =>
    if k = key then (k, v) :: rest else (k, w) :: setKey rest key v

/-- eraseKey models the JS delete operator on an object key. -/
def eraseKey : List (String × Json) → String → List (String × Json)
  | [], _ => []
  | (k, w) :: rest, key => if k = key then rest else (k, w) :: eraseKey rest key

/-- isTruthy is JavaScript truthiness on the modelled values: null, false,
0 and the empty string are falsy, every array and object is truthy. -/
def isTruthy : Json → Bool
  | .null => false
  | .bool b => b
  | .num n => n != 0
  | .str s => s ≠ ""
  | .arr _ => true
  | .obj _ => true

/-- optTruthy extends truthiness to a possibly-missing value: an absent
member (undefined) is falsy. -/
def optTruthy : Option Json → Bool
  | none => false
  | some v => isTruthy v

def isObjJ : Json → Bool
  | .obj _ => true
  | _ => false

def isArrJ : Json → Bool
  | .arr _ => true
  | _ => false

/-- isPre checks that the first list is a prefix of the second. -/
def isPre : List Char → List Char → Bool
  | [], _ => true
  | _ :: _, [] => false
  | p :: ps, c :: cs => p = c && isPre ps cs

/-- jsStartsWith is String.prototype.startsWith, implemented over the
character lists so that it evaluates inside the kernel. -/
def jsStartsWith (s p : String) : Bool := isPre p.data s.data

def splitCharGo (d : Char) (acc : List Char) : List Char → List (List Char)
  | [] => [acc.reverse]
  | c :: rest =>
    if c = d then acc.reverse :: splitCharGo d [] rest
    else splitCharGo d (c :: acc) rest

/-- jsSplit1 is String.prototype.split for a one-character separator,
which is the only separator the engine ever splits on ("/"): the empty
string splits to [""], and adjacent separators produce empty segments. -/
def jsSplit1 (s : String) (d : Char) : List String :=
  (splitCharGo d [] s.data).map String.mk

def digitsToNat (ds : List Char) : Nat :=
  ds.foldl (fun acc c => acc * 10 + (c.toNat - '0'.toNat)) 0

/-- arrayIndex recognises a canonical JS array-index string (all digits,
no leading zero except "0" itself), as used by bracket reads on arrays. -/
def arrayIndex (k : String) : Option Nat :=
  if k.length > 0 && k.data.all Char.isDigit && (k == "0" || !(jsStartsWith k "0")) then
    some (digitsToNat k.data)
  else none

/-- access is one step of the JS member read obj[key] on a non-null,
defined base: object property, array element / length, string character /
length; reads on numbers and booleans give undefined (none).  Reads on
null or undefined bases throw instead and are handled in rawGetGo. -/
def access : Json → String → Option Json
  | .obj fs, k => lookupField fs k
  | .arr xs, k =>
    if k = "length" then some (.num xs.length)
    else
      match arrayIndex k with
      | some i => xs.get? i
      | none => none
  | .str s, k =>
    if k = "length" then some (.num s.length)
    else
      match arrayIndex k with
      | some i => (s.data.get? i).map (fun c => .str (String.mk [c]))
      | none => none
  | .num _, _ => none
  | .bool _, _ => none
  | .null, _ => none

/-- rawGetGo folds member reads over a path, distinguishing the two JS
failure modes of keys.reduce((obj, key) => obj[key], root): an outer none
is a thrown TypeError (member read on undefined or null), some none is a
completed reduce whose result is undefined. -/
def rawGetGo : Option Json → List String → Option (Option Json)
  | cur, [] => some cur
  | none, _ :: _ => none
  | some .null, _ :: _ => none
  | some c, k :: rest => rawGetGo (access c k) rest

/-- rawGet models keys.reduce((obj, key) => obj[key], root) from
src/resolve-refs.ts: none is a throw, some none an undefined result. -/
def rawGet (root : Json) (keys : List String) : Option (Option Json) :=
  rawGetGo (some root) keys

/-- absLookup is the reference-resolution view of rawGet: the walker's
try/catch treats a throw and an undefined result identically (both make
the walker return the original reference string), and a defined result is
then cloned, which is the identity here. -/
def absLookup (root : Json) (keys : List String) : Option Json :=
  match rawGet root keys with
  | some (some v) => some v
  | _ => none

/-! Collaborator: deepMerge from src/object-mutation.ts (effectiveDeepMerge
with no fixer configured, which is how resolve-refs always calls it:
resolve-refs never calls deepMerge.setConfig). -/

mutual

/-- dmerge is effectiveDeepMerge(target, source) from
src/object-mutation.ts: it merges only when both sides are plain objects
(arrays and scalars are not objects there because of the isObject guard),
otherwise the target is returned unchanged. -/
def dmerge (t s : Json) : Json :=
  match t, s with
  | .obj tfs, .obj sfs => .obj (dmergeGo tfs sfs)
  | t, _ => t

/-- dmergeGo is the for-in loop of effectiveDeepMerge: an object-valued
source member merges recursively (after replacing a falsy target member
by a fresh empty object -- a truthy non-object target member is left as
is, because the recursive call then does nothing); any other source
member is assigned wholesale. -/
def dmergeGo (tfs : List (String × Json)) (sfs : List (String × Json)) :
    List (String × Json) :=
  match sfs with
  | [] => tfs
  | (k, sv) :: rest =>
    let tfs' :=
      if isObjJ sv then
        match lookupField tfs k with
        | some tv =>
          if isTruthy tv then setKey tfs k (dmerge tv sv)
          else setKey tfs k (dmerge (.obj []) sv)
        | none => setKey tfs k (dmerge (.obj []) sv)
      else setKey tfs k sv
    dmergeGo tfs' rest

end

/-- dmerge3 is deepMerge(target, s1, s2), which folds the sources left to
right into the target. -/
def dmerge3 (t s1 s2 : Json) : Json := dmerge (dmerge t s1) s2

/-! Collaborator: unflatten from src/flat.ts, called by the template
expander as unflatten(overrides, "/"). -/

/-- setMember models the JS write current[key] = v during unflatten:
object keys are set in place, canonical numeric indices write into arrays
(an index one past the end appends; a larger one pads with null, which is
how JSON.stringify renders the resulting sparse array), a non-numeric key
on an array becomes a non-index property invisible to JSON and is dropped
(writes to "length" are not modelled), and a write on a primitive is a
strict-mode TypeError (none). -/
def setMember (cur : Json) (k : String) (v : Json) : Option Json :=
  match cur with
  | .obj fs => some (.obj (setKey fs k v))
  | .arr xs =>
    if k = "length" then none
    else
      match arrayIndex k with
      | some i =>
        if i < xs.length then some (.arr (xs.set i v))
        else some (.arr (xs ++ List.replicate (i - xs.length) .null ++ [v]))
      | none => some (.arr xs)
  | _ => none

/-- getMember is the JS read current[realKey] used by unflatten to decide
whether a container already exists on the path (=== undefined check). -/
def getMember (cur : Json) (k : String) : Option Json :=
  match cur with
  | .obj fs => lookupField fs k
  | .arr xs =>
    if k = "length" then some (.num xs.length)
    else
      match arrayIndex k with
      | some i => xs.get? i
      | none => none
  | _ => none

/-- insertPath is the inner for-loop of unflatten for one flat key: it
walks/creates containers along the split key (an array when the next
segment is numeric, an object otherwise) and sets the value at the last
segment. -/
def insertPath (cur : Json) (keys : List String) (v : Json) : Option Json :=
  match keys with
  | [] => some cur
  | [k] => setMember cur k v
  | k :: rest =>
    let nextIsIdx :=
      match rest with
      | r :: _ => (arrayIndex r).isSome
      | [] => false
    match getMember cur k with
    | some child =>
      match insertPath child rest v with
      | some child' => setMember cur k child'
      | none => none
    | none =>
      match cur with
      | .obj _ | .arr _ =>
        let container : Json := if nextIsIdx then .arr [] else .obj []
        match insertPath container rest v with
        | some child' => setMember cur k child'
        | none => none
      | _ => none

/-- unflattenGo folds insertPath over the flat object's entries in order,
starting from the empty result object, as the for-of loop of unflatten
does. -/
def unflattenGo (acc : Json) (fields : List (String × Json)) (delim : Char) :
    Option Json :=
  match fields with
  | [] => some acc
  | (k, v) :: rest =>
    match insertPath acc (jsSplit1 k delim) v with
    | some acc' => unflattenGo acc' rest delim
    | none => none

/-- unflattenF is unflatten(object, delimiter) from src/flat.ts; the
delimiter is a single character because the engine only ever splits on
"/". -/
def unflattenF (fields : List (String × Json)) (delim : Char) : Option Json :=
  unflattenGo (.obj []) fields delim

/-! JSON.stringify, used by the deferred-block fixed-point loop to compare
two passes, and by string interpolation to render non-string values. -/

def escChar (c : Char) : List Char :=
  if c = '"' then ['\\', '"']
  else if c = '\\' then ['\\', '\\']
  else if c = '\n' then ['\\', 'n']
  else [c]

def strLit (s : String) : String :=
  "\"" ++ String.mk (s.data.foldr (fun c acc => escChar c ++ acc) []) ++ "\""

mutual

def jsonStringify : Json → String
  | .null => "null"
  | .bool b => if b then "true" else "false"
  | .num n => toString n
  | .str s => strLit s
  | .arr xs => "[" ++ stringifyElems xs ++ "]"
  | .obj fs => "\x7b" ++ stringifyFields fs ++ "\x7d"

def stringifyElems : List Json → String
  | [] => ""
  | [x] => jsonStringify x
  | x :: rest => jsonStringify x ++ "," ++ stringifyElems rest

def stringifyFields : List (String × Json) → String
  | [] => ""
  | [(k, v)] => strLit k ++ ":" ++ jsonStringify v
  | (k, v) :: rest => strLit k ++ ":" ++ jsonStringify v ++ "," ++ stringifyFields rest

end

/-! Array.prototype.join coercion, used by the join task. -/

mutual

/-- jsJoinElem is how Array.prototype.join renders one element: null (and
undefined) become the empty string, nested arrays join with commas,
objects render as their default string form. -/
def jsJoinElem : Json → String
  | .null => ""
  | .bool b => if b then "true" else "false"
  | .num n => toString n
  | .str s => s
  | .arr xs => jsJoin xs ","
  | .obj _ => "[object Object]"

def jsJoin : List Json → String → String
  | [], _ => ""
  | [x], _ => jsJoinElem x
  | x :: rest, sep => jsJoinElem x ++ sep ++ jsJoin rest sep

end

/-! String interpolation scanning: the regex /\$\{([^}]+?)\}/g of the
walker.  A run is a dollar, an opening brace, one or more non-brace
characters (lazily matched, so up to the first closing brace) and the
closing brace.  An empty run does not match and scanning resumes one
character later, exactly as the regex engine advances. -/

def braceOpen : Char := Char.ofNat 123

def braceClose : Char := Char.ofNat 125

/-- interpStart is the two-character token that opens an interpolation
run. -/
def interpStart : String := String.mk ['$', braceOpen]

def containsInterpChars : List Char → Bool
  | [] => false
  | c :: rest =>
    (c = '$' && (match rest with | c2 :: _ => c2 = braceOpen | [] => false))
      || containsInterpChars rest

/-- containsInterp is item.includes of the run-opening token. -/
def containsInterp (s : String) : Bool :=
  containsInterpChars s.data

/-- splitAtBrace splits a character list at the first closing brace,
dropping the brace; none when there is no closing brace at all. -/
def splitAtBrace : List Char → Option (List Char × List Char)
  | [] => none
  | c :: rest =>
    if c = braceClose then some ([], rest)
    else
      match splitAtBrace rest with
      | some (pre, post) => some (c :: pre, post)
      | none => none

/-- findRun finds the first interpolation run: the text before it, the
(non-empty) path inside the braces, and the remaining text after the
closing brace. -/
def findRun : List Char → Option (List Char × List Char × List Char)
  | [] => none
  | c :: rest =>
    if c = '$' then
      match rest with
      | c2 :: rest2 =>
        if c2 = braceOpen then
          match splitAtBrace rest2 with
          | some (content, after) =>
            if content.isEmpty then
              match findRun rest with
              | some (pre, content', after') => some (c :: pre, content', after')
              | none => none
            else some ([], content, after)
          | none => none
        else
          match findRun rest with
          | some (pre, content, after) => some (c :: pre, content, after)
          | none => none
      | [] => none
    else
      match findRun rest with
      | some (pre, content, after) => some (c :: pre, content, after)
      | none => none

/-- stringifyProcessed renders an interpolation result: strings pass
through, everything else is JSON-serialized, as in the walker's replace
callback. -/
def stringifyProcessed : Json → String
  | .str s => s
  | v => jsonStringify v

/-! The engine itself: the loop / processRules closures of the default
export of src/resolve-refs.ts.  A rule binds a trigger string to a task
name and its argument list; only the four built-in tasks are modelled
(resolve-refs is always called with extraTasks = \x7b\x7d in the claims
considered here).  The mutable schema binding that the iterate task
writes to and deletes from is threaded explicitly: every function takes
the current schema and returns the updated one.  An unknown task name, a
wrong-shaped argument list, or a throwing raw lookup inside a task crash
the JS engine with a TypeError; the model returns none for those, as it
does for fuel exhaustion. -/

def Rules : Type := List (String × String × List Json)

def lookupRule : Rules → String → Option (String × List Json)
  | [], _ => none
  | (t, task, args) :: rest, key =>
    if t = key then some (task, args) else lookupRule rest key

/-- setKeyJ is schema[itemName] = item for an object schema (the only
schema shape the engine is used with); a non-object schema is returned
unchanged. -/
def setKeyJ (j : Json) (k : String) (v : Json) : Json :=
  match j with
  | .obj fs => .obj (setKey fs k v)
  | other => other

/-- eraseKeyJ is delete schema[itemName]. -/
def eraseKeyJ (j : Json) (k : String) : Json :=
  match j with
  | .obj fs => .obj (eraseKey fs k)
  | other => other

/-- flat1 is Array.prototype.flat(): one level of arrays is spliced into
the surrounding list. -/
def flat1 : List Json → List Json
  | [] => []
  | .arr ys :: rest => ys ++ flat1 rest
  | x :: rest => x :: flat1 rest

mutual

/-- loopF is the inner function loop(item, currentContext,
skipRelativeRefs) of resolve-refs.ts, with the schema threaded as state.
Fuel decreases on every call of every function of this block, so the
functions are structurally recursive; none means the fuel ran out (the
source can genuinely diverge) or a task crashed. -/
def loopF (fuel : Nat) (rules : Rules) (item : Json) (ctx : Option Json)
    (skip : Bool) (sch : Json) : Option (Json × Json) :=
  match fuel with
  | 0 => none
  | fuel + 1 =>
    match item with
    | .null => some (.null, sch)
    | .bool b => some (.bool b, sch)
    | .num n => some (.num n, sch)
    | .arr xs =>
      match walkListF fuel rules xs ctx skip sch with
      | none => none
      | some (rs, sch1) => some (.arr (flat1 rs), sch1)
    | .obj fields =>
      match lookupField fields "ref" with
      | some refv =>
        if isTruthy refv then
          match unflattenF (eraseKey fields "ref") '/' with
          | none => none
          | some unflattened =>
            match loopF fuel rules refv ctx true sch with
            | none => none
            | some (refObj, sch1) =>
              match refObj with
              | .obj rfs =>
                match lookupField rfs "." with
                | some dotv =>
                  if isTruthy dotv then
                    let merged := dmerge3 (.obj []) (.obj (eraseKey rfs ".")) unflattened
                    match loopF fuel rules dotv (some merged) false sch1 with
                    | none => none
                    | some (p0, sch2) => fixLoopF fuel rules merged p0 sch2
                  else some (dmerge3 (.obj []) (.obj rfs) unflattened, sch1)
                | none => some (dmerge3 (.obj []) (.obj rfs) unflattened, sch1)
              | .str s => some (dmerge (.obj [("ref", .str s)]) unflattened, sch1)
              | other => some (dmerge3 (.obj []) other unflattened, sch1)
        else walkFieldsF fuel rules fields fields (.obj []) ctx skip sch
      | none => walkFieldsF fuel rules fields fields (.obj []) ctx skip sch
    | .str s =>
      if jsStartsWith s "$" && !(jsStartsWith s interpStart) then
        match processRulesF fuel rules s sch with
        | none => none
        | some (some (v, sch1)) => some (v, sch1)
        | some none =>
          if jsStartsWith s "$./" then
            match ctx with
            | none => some (.str s, sch)
            | some c =>
              match absLookup c (jsSplit1 (s.drop 3) '/') with
              | some d => loopF fuel rules d ctx skip sch
              | none => some (.str s, sch)
          else
            match absLookup sch (jsSplit1 (s.drop 1) '/') with
            | some d => loopF fuel rules d ctx skip sch
            | none => some (.str s, sch)
      else if containsInterp s then
        match interpGoF fuel rules s.data ctx skip sch with
        | none => none
        | some (out, sch1) => some (.str out, sch1)
      else some (.str s, sch)

/-- walkListF is item.map(a => loop(a, currentContext, skipRelativeRefs))
for an array node; the caller applies flat1 to the result. -/
def walkListF (fuel : Nat) (rules : Rules) (xs : List Json) (ctx : Option Json)
    (skip : Bool) (sch : Json) : Option (List Json × Json) :=
  match fuel with
  | 0 => none
  | fuel + 1 =>
    match xs with
    | [] => some ([], sch)
    | x :: rest =>
      match loopF fuel rules x ctx skip sch with
      | none => none
      | some (v, sch1) =>
        match walkListF fuel rules rest ctx skip sch1 with
        | none => none
        | some (vs, sch2) => some (v :: vs, sch2)

/-- walkFieldsF is the Object.keys(item).forEach of the ordinary-mapping
branch: a "." key met with suppression off first resolves every other
member (walkOthersF), then resolves the "." member with the partial
object as context and deep-merges it in; any other key is assigned only
when the object has no truthy "." member or suppression is on. -/
def walkFieldsF (fuel : Nat) (rules : Rules) (allFields : List (String × Json))
    (remaining : List (String × Json)) (acc : Json) (ctx : Option Json)
    (skip : Bool) (sch : Json) : Option (Json × Json) :=
  match fuel with
  | 0 => none
  | fuel + 1 =>
    match remaining with
    | [] => some (acc, sch)
    | (k, v) :: rest =>
      if k = "." && !skip then
        match walkOthersF fuel rules allFields acc ctx skip sch with
        | none => none
        | some (acc1, sch1) =>
          match loopF fuel rules v (some acc1) false sch1 with
          | none => none
          | some (rel, sch2) =>
            walkFieldsF fuel rules allFields rest (dmerge acc1 rel) ctx skip sch2
      else
        if !(optTruthy (lookupField allFields ".")) || skip then
          match loopF fuel rules v ctx skip sch with
          | none => none
          | some (v', sch1) =>
            walkFieldsF fuel rules allFields rest (setKeyJ acc k v') ctx skip sch1
        else walkFieldsF fuel rules allFields rest acc ctx skip sch

/-- walkOthersF is the inner forEach of the "." handler: it resolves
every member except "." (under the outer context and suppression flag)
and assigns it into the partial result. -/
def walkOthersF (fuel : Nat) (rules : Rules) (remaining : List (String × Json))
    (acc : Json) (ctx : Option Json) (skip : Bool) (sch : Json) :
    Option (Json × Json) :=
  match fuel with
  | 0 => none
  | fuel + 1 =>
    match remaining with
    | [] => some (acc, sch)
    | (k, v) :: rest =>
      if k = "." then walkOthersF fuel rules rest acc ctx skip sch
      else
        match loopF fuel rules v ctx skip sch with
        | none => none
        | some (v', sch1) =>
          walkOthersF fuel rules rest (setKeyJ acc k v') ctx skip sch1

/-- fixLoopF is the while (hasChanges) loop of the template expander:
each pass first merges the processed deferred block into the merged
object (deepMerge mutates mergedObject in place in the source, so the
merged object accumulates), re-resolves the processed block under that
context, and stops when two passes JSON-serialize identically; the result
is deepMerge(mergedObject, processedRelativeRefs). -/
def fixLoopF (fuel : Nat) (rules : Rules) (merged processed : Json) (sch : Json) :
    Option (Json × Json) :=
  match fuel with
  | 0 => none
  | fuel + 1 =>
    let c := dmerge merged processed
    match loopF fuel rules processed (some c) false sch with
    | none => none
    | some (newP, sch1) =>
      if jsonStringify newP = jsonStringify processed then
        some (dmerge c newP, sch1)
      else fixLoopF fuel rules c newP sch1

/-- processRulesF is processRules(key): none when the dispatch crashes
(unknown task, bad arity, throwing raw lookup), some none when no rule
matches (the caller falls through to plain path resolution), and
some (some (v, sch)) when a task produced v. -/
def processRulesF (fuel : Nat) (rules : Rules) (key : String) (sch : Json) :
    Option (Option (Json × Json)) :=
  match fuel with
  | 0 => none
  | fuel + 1 =>
    match lookupRule rules key with
    | none => some none
    | some (task, args) =>
      if task = "iterate" then
        match args with
        | keyData :: .str itemName :: _ =>
          match loopF fuel rules keyData none false sch with
          | none => none
          | some (data, sch1) =>
            match data with
            | .arr items =>
              match rawGet sch1 (jsSplit1 (key.drop 1) '/') with
              | some (some tmpl) =>
                match iterGoF fuel rules items itemName tmpl sch1 with
                | none => none
                | some (results, sch2) =>
                  some (some (.arr results, eraseKeyJ sch2 itemName))
              | _ => none
            | _ => some (some (.arr [], sch1))
        | _ => none
      else if task = "join" then
        match args with
        | first :: .str sep :: next =>
          match loopF fuel rules first none false sch with
          | none => none
          | some (f, sch1) =>
            match f with
            | .arr xs => some (some (.str (jsJoin xs sep), sch1))
            | _ =>
              match loopF fuel rules (.arr [.str sep, .arr next]) none false sch1 with
              | none => none
              | some (.arr rs, sch2) => some (some (.str (jsJoin (f :: rs) ""), sch2))
              | some _ => none
        | _ => none
      else if task = "ignore" then
        match args with
        | .str d :: defv :: _ =>
          match rawGet sch (jsSplit1 (d.drop 1) '/') with
          | none => none
          | some copt =>
            some (some (if optTruthy copt then copt.getD .null else defv, sch))
        | _ => none
      else if task = "if" then
        match args with
        | .str d :: found :: defv :: _ =>
          match rawGet sch (jsSplit1 (d.drop 1) '/') with
          | none => none
          | some copt =>
            if optTruthy copt then
              match loopF fuel rules found none false sch with
              | none => none
              | some (v, sch1) => some (some (if isTruthy v then v else defv, sch1))
            else some (some (defv, sch))
        | _ => none
      else none

/-- iterGoF is the data.map of the iterate task: each element is written
into the schema under itemName, the item template is resolved under that
binding, and the results are collected in order.  The trailing delete is
performed by the caller (processRulesF) after the whole map, as in the
source.  The item template is fetched once before the map and is used as
a value here, which matches the source whenever the walk does not mutate
the fetched subtree. -/
def iterGoF (fuel : Nat) (rules : Rules) (items : List Json) (itemName : String)
    (tmpl : Json) (sch : Json) : Option (List Json × Json) :=
  match fuel with
  | 0 => none
  | fuel + 1 =>
    match items with
    | [] => some ([], sch)
    | item :: rest =>
      match loopF fuel rules tmpl none false (setKeyJ sch itemName item) with
      | none => none
      | some (r, sch1) =>
        match iterGoF fuel rules rest itemName tmpl sch1 with
        | none => none
        | some (rs, sch2) => some (r :: rs, sch2)

/-- interpGoF is result.replace(pattern, callback) of the interpolation
branch: each run resolves its path (against the context when the path
starts with "./" and a context exists, against the schema otherwise),
walks the found value, renders it, and splices it back; a failed lookup
keeps the matched text verbatim. -/
def interpGoF (fuel : Nat) (rules : Rules) (chars : List Char) (ctx : Option Json)
    (skip : Bool) (sch : Json) : Option (String × Json) :=
  match fuel with
  | 0 => none
  | fuel + 1 =>
    match findRun chars with
    | none => some (String.mk chars, sch)
    | some (pre, content, after) =>
      let path := String.mk content
      let matchText := interpStart ++ path ++ String.mk [braceClose]
      let step : Option (String × Json) :=
        if jsStartsWith path "./" then
          match ctx with
          | none => some (matchText, sch)
          | some c =>
            match absLookup c (jsSplit1 (path.drop 2) '/') with
            | some d =>
              match loopF fuel rules d ctx skip sch with
              | none => none
              | some (pv, sch1) => some (stringifyProcessed pv, sch1)
            | none => some (matchText, sch)
        else
          match absLookup sch (jsSplit1 path '/') with
          | some d =>
            match loopF fuel rules d ctx skip sch with
            | none => none
            | some (pv, sch1) => some (stringifyProcessed pv, sch1)
          | none => some (matchText, sch)
      match step with
      | none => none
      | some (rep, sch1) =>
        match interpGoF fuel rules after ctx skip sch1 with
        | none => none
        | some (restStr, sch2) => some (String.mk pre ++ rep ++ restStr, sch2)

end

/-- resolveRefsFullF is the default export resolveRefs(object, schema,
rules): the entry clone of the input is the identity on modelled values,
and the walk starts with no context and suppression off.  The returned
pair is (resolved tree, schema after the call) -- the source mutates the
caller's schema object in place, so the second component is what the
caller observes in their schema afterwards. -/
def resolveRefsFullF (fuel : Nat) (object : Json) (schema : Json) (rules : Rules) :
    Option (Json × Json) :=
  loopF fuel rules object none false schema

/-- resolveRefsF is the value returned to the caller. -/
def resolveRefsF (fuel : Nat) (object : Json) (schema : Json) (rules : Rules) :
    Option Json :=
  (resolveRefsFullF fuel object schema rules).map Prod.fst

/-! Analysis predicates over trees, used to state the general theorems:
tokensFree is the spec's "no remaining reference tokens" condition,
inertB characterises trees the walker maps to themselves, jsize bounds
the fuel the walker needs on such trees. -/

def keyMem (key : String) : List (String × Json) → Bool
  | [] => false
  | (k, _) :: rest => key = k || keyMem key rest

def nodupKeys : List (String × Json) → Bool
  | [] => true
  | (k, _) :: rest => !(keyMem k rest) && nodupKeys rest

mutual

/-- tokensFree holds when no string scalar of the tree starts with the
dollar sigil and none contains an interpolation run. -/
def tokensFree : Json → Bool
  | .null => true
  | .bool _ => true
  | .num _ => true
  | .str s => !(jsStartsWith s "$") && !(containsInterp s)
  | .arr xs => tokensFreeElems xs
  | .obj fs => tokensFreeFields fs

def tokensFreeElems : List Json → Bool
  | [] => true
  | x :: rest => tokensFree x && tokensFreeElems rest

def tokensFreeFields : List (String × Json) → Bool
  | [] => true
  | (_, v) :: rest => tokensFree v && tokensFreeFields rest

end

mutual

/-- inertB holds for trees the walker leaves unchanged: reference-token
free strings, sequences without nested sequences (the walker splices
those), and mappings with unique keys and neither a "ref" nor a "."
member (the walker expands the former and merges away the latter). -/
def inertB : Json → Bool
  | .null => true
  | .bool _ => true
  | .num _ => true
  | .str s => !(jsStartsWith s "$") && !(containsInterp s)
  | .arr xs => inertElems xs
  | .obj fs =>
    (lookupField fs "ref").isNone && (lookupField fs ".").isNone &&
      nodupKeys fs && inertFields fs

def inertElems : List Json → Bool
  | [] => true
  | x :: rest => !(isArrJ x) && inertB x && inertElems rest

def inertFields : List (String × Json) → Bool
  | [] => true
  | (_, v) :: rest => inertB v && inertFields rest

end

mutual

/-- jsize measures a tree; the walker resolves an inert tree of size n
within any fuel above n. -/
def jsize : Json → Nat
  | .null => 1
  | .bool _ => 1
  | .num _ => 1
  | .str _ => 1
  | .arr xs => 1 + jsizeElems xs
  | .obj fs => 1 + jsizeFields fs

def jsizeElems : List Json → Nat
  | [] => 0
  | x :: rest => 1 + jsize x + jsizeElems rest

def jsizeFields : List (String × Json) → Nat
  | [] => 0
  | (_, v) :: rest => 1 + jsize v + jsizeFields rest

end

/-- setKeyList folds setKey over a field list, which is how the ordinary
mapping walk accumulates its output object. -/
def setKeyList (accfs : List (String × Json)) :
    List (String × Json) → List (String × Json)
  | [] => accfs
  | (k, v) :: rest => setKeyList (setKey accfs k v) rest

/-! Concrete inputs used to evaluate the engine on the scenarios of the
specification and its test suite. -/

/-- ifRule is a rule table with a single rule binding a trigger to the
built-in if task. -/
def ifRule (trig d : String) (found defv : Json) : Rules :=
  [(trig, "if", [Json.str d, found, defv])]

/-- tmplSpec is the template of the spec's deferred-block example:
\x7bvar1:"zzzzz", var2:"33333", ".":\x7bvalueVar1:"$./var1"\x7d\x7d. -/
def tmplSpec : Json :=
  .obj [("var1", .str "zzzzz"), ("var2", .str "33333"),
    (".", .obj [("valueVar1", .str "$./var1")])]

/-- inDeferred is the full input of the deferred-block scenario: an
object referencing the template with an overriding var1. -/
def inDeferred : Json :=
  .obj [
    ("obj1", .obj [("ref", .str "$definitions/template"), ("var1", .str "xxxx")]),
    ("definitions", .obj [("template", tmplSpec)])]

/-- outDeferred is the tree the engine produces for inDeferred (schema
defaulted to the input). -/
def outDeferred : Json :=
  .obj [
    ("obj1", .obj [("var1", .str "xxxx"), ("var2", .str "33333"),
      ("valueVar1", .str "xxxx")]),
    ("definitions", .obj [("template", .obj [("var1", .str "zzzzz"),
      ("var2", .str "33333"), ("valueVar1", .str "zzzzz")])])]

/-- schValues is the schema \x7bvalues:\x7bvalue1:1,value2:2,value3:3\x7d\x7d of the
override test. -/
def schValues : Json :=
  .obj [("values", .obj [("value1", .num 1), ("value2", .num 2), ("value3", .num 3)])]

/-- schFetch is a schema whose template t carries a relative reference
outside any deferred block. -/
def schFetch : Json := .obj [("t", .obj [("a", .str "$./var1")])]

/-- ctxFetch is a caller context binding var1. -/
def ctxFetch : Json := .obj [("var1", .str "xxxx")]

/-- inFetch reaches a template fetch while a context is active: the "."
member's template reference is fetched during deferred resolution. -/
def inFetch : Json :=
  .obj [("var1", .str "xxxx"), (".", .obj [("sub", .obj [("ref", .str "$t")])])]

/-- schFetchDot is a schema whose template t2 carries a deferred block. -/
def schFetchDot : Json := .obj [("t2", tmplSpec)]

/-- schIfTask is the schema of the if-task scenario: a truthy flag and a
falsy value for the found branch to resolve to. -/
def schIfTask : Json := .obj [("flag", .bool true), ("zero", .num 0)]

/-- rulesIfTask triggers the if task on $check with a truthy condition
and a found branch resolving to 0. -/
def rulesIfTask : Rules := ifRule "$check" "$flag" (.str "$zero") (.num 99)

/-- schIter is a schema for the iterate task that already contains a
member named like the per-item binding ("user"). -/
def schIter : Json :=
  .obj [("user", .str "original"),
    ("data", .obj [("users", .arr [.str "Alice", .str "Bob"])]),
    ("usersOut", .obj [("greet", .str "$user")])]

/-- schIterClean is the same schema without the pre-existing "user"
member. -/
def schIterClean : Json :=
  .obj [("data", .obj [("users", .arr [.str "Alice", .str "Bob"])]),
    ("usersOut", .obj [("greet", .str "$user")])]

/-- rulesIter binds $usersOut to the iterate task over $data/users with
item name "user". -/
def rulesIter : Rules := [("$usersOut", "iterate", [.str "$data/users", .str "user"])]

/-- outIter is the sequence the iterate scenario produces. -/
def outIter : Json :=
  .arr [.obj [("greet", .str "Alice")], .obj [("greet", .str "Bob")]]

/-- inIdem is an input whose first resolution leaves a "." key in the
output: a template reference whose overrides carry a "." member. -/
def inIdem : Json := .obj [("ref", .str "$t"), (".", .obj [("foo", .num 1)])]

/-- schIdem is the schema for inIdem. -/
def schIdem : Json := .obj [("t", .obj [("a", .num 1)])]

/-- outIdem1 is the first resolution of inIdem: token free, but the "."
member survives because the expander never walks the merged overrides. -/
def outIdem1 : Json := .obj [("a", .num 1), (".", .obj [("foo", .num 1)])]

/-- outIdem2 is the second resolution: the surviving "." member is now
interpreted and merged away, so the result differs. -/
def outIdem2 : Json := .obj [("a", .num 1), ("foo", .num 1)]

/-- inFalsyRef is a mapping with a falsy ref member and a "." member
whose block overwrites ref. -/
def inFalsyRef : Json := .obj [("ref", .num 0), (".", .obj [("ref", .str "")])]

/-- schSplice is the schema of the sequence-splicing scenario. -/
def schSplice : Json := .obj [("a", .arr [.num 1, .num 2]), ("b", .num 3)]

/-! Basic lemmas about the association-list operations. -/

theorem lookupField_none_keys {fs : List (String × Json)} {key : String}
    (h : lookupField fs key = none) : ∀ p ∈ fs, p.1 ≠ key := by
  induction fs with
  | nil => intro p hp; cases hp
  | cons a rest ih =>
    obtain ⟨k, v⟩ := a
    intro p hp
    by_cases hk : k = key
    · simp [lookupField, hk] at h
    · simp only [lookupField, if_neg hk] at h
      rcases List.mem_cons.mp hp with hp | hp
      · subst hp; exact hk
      · exact ih h p hp

theorem keyMem_false_forall {key : String} {fs : List (String × Json)}
    (h : keyMem key fs = false) : ∀ p ∈ fs, p.1 ≠ key := by
  induction fs with
  | nil => intro p hp; cases hp
  | cons a rest ih =>
    obtain ⟨k, v⟩ := a
    simp only [keyMem, Bool.or_eq_false_iff] at h
    intro p hp
    rcases List.mem_cons.mp hp with hp | hp
    · subst hp
      exact fun hk => of_decide_eq_false h.1 hk.symm
    · exact ih h.2 p hp

theorem setKey_append {accfs : List (String × Json)} {k : String} {v : Json}
    (h : keyMem k accfs = false) : setKey accfs k v = accfs ++ [(k, v)] := by
  induction accfs with
  | nil => rfl
  | cons a rest ih =>
    obtain ⟨k', w⟩ := a
    simp only [keyMem, Bool.or_eq_false_iff] at h
    have hne : k' ≠ k := by
      intro hk; simp [hk] at h
    simp [setKey, hne, ih h.2]

theorem keyMem_append {key : String} {a b : List (String × Json)} :
    keyMem key (a ++ b) = (keyMem key a || keyMem key b) := by
  induction a with
  | nil => simp [keyMem]
  | cons p rest ih =>
    obtain ⟨k, v⟩ := p
    simp [keyMem, ih, Bool.or_assoc]

theorem setKeyList_eq_append {fs accfs : List (String × Json)}
    (h1 : ∀ p ∈ fs, keyMem p.1 accfs = false) (h2 : nodupKeys fs = true) :
    setKeyList accfs fs = accfs ++ fs := by
  induction fs generalizing accfs with
  | nil => simp [setKeyList]
  | cons a rest ih =>
    obtain ⟨k, v⟩ := a
    simp only [nodupKeys, Bool.and_eq_true, Bool.not_eq_true'] at h2
    have hk : keyMem k accfs = false := h1 (k, v) (List.mem_cons_self _ _)
    rw [setKeyList, setKey_append hk]
    rw [ih, List.append_assoc]
    · rfl
    · intro p hp
      rw [keyMem_append, Bool.or_eq_false_iff]
      refine ⟨h1 p (List.mem_cons_of_mem _ hp), ?_⟩
      have : p.1 ≠ k := keyMem_false_forall h2.1 p hp
      simp [keyMem, this]
    · exact h2.2

theorem lookup_setKey_self {fs : List (String × Json)} {k : String} {v : Json} :
    lookupField (setKey fs k v) k = some v := by
  induction fs with
  | nil => simp [setKey, lookupField]
  | cons a rest ih =>
    obtain ⟨k', w⟩ := a
    by_cases hk : k' = k
    · simp [setKey, lookupField, hk]
    · simp [setKey, lookupField, hk, ih]

theorem lookup_setKey_ne {fs : List (String × Json)} {k key : String} {v : Json}
    (h : k ≠ key) : lookupField (setKey fs k v) key = lookupField fs key := by
  induction fs with
  | nil => simp [setKey, lookupField, h]
  | cons a rest ih =>
    obtain ⟨k', w⟩ := a
    by_cases hk : k' = k
    · subst hk
      simp [setKey, lookupField, h]
    · simp [setKey, lookupField, hk, ih]

theorem keyMem_setKey_ne {fs : List (String × Json)} {k key : String} {v : Json}
    (h : key ≠ k) : keyMem key (setKey fs k v) = keyMem key fs := by
  induction fs with
  | nil => simp [setKey, keyMem, h]
  | cons a rest ih =>
    obtain ⟨k', w⟩ := a
    by_cases hk : k' = k
    · subst hk
      simp [setKey, keyMem]
    · simp [setKey, keyMem, hk, ih]

theorem flat1_noArr {xs : List Json} (h : ∀ x ∈ xs, isArrJ x = false) :
    flat1 xs = xs := by
  induction xs with
  | nil => rfl
  | cons x rest ih =>
    have hx := h x (List.mem_cons_self _ _)
    have hrest : ∀ y ∈ rest, isArrJ y = false := fun y hy => h y (List.mem_cons_of_mem _ hy)
    cases x <;> simp_all [flat1, isArrJ]

/-- falsyFixed: the walker maps every falsy scalar (null, false, 0, the
empty string) to itself with any positive fuel and leaves the schema
untouched.  This is the behaviour the falsy-ref guard relies on. -/
theorem falsyFixed {v : Json} (g : Nat) (rules : Rules) (ctx : Option Json)
    (skip : Bool) (sch : Json) (h : isTruthy v = false) :
    loopF (g + 1) rules v ctx skip sch = some (v, sch) := by
  cases v with
  | null => simp [loopF]
  | bool b => simp [loopF]
  | num n => simp [loopF]
  | str s =>
    have hs : s = "" := by
      simpa [isTruthy] using h
    subst hs
    rfl
  | arr xs => simp [isTruthy] at h
  | obj fs => simp [isTruthy] at h

theorem inertElems_props {xs : List Json} (h : inertElems xs = true) :
    ∀ x ∈ xs, isArrJ x = false ∧ inertB x = true := by
  induction xs with
  | nil => intro x hx; cases hx
  | cons y rest ih =>
    simp only [inertElems, Bool.and_eq_true, Bool.not_eq_true'] at h
    intro x hx
    rcases List.mem_cons.mp hx with hx | hx
    · subst hx; exact ⟨h.1.1, h.1.2⟩
    · exact ih h.2 x hx

/-- inertWalk: on an inert tree the walker is the identity (and does not
touch the schema), given fuel above the tree's size.  Proved for the
value walk, the sequence walk and the ordinary-mapping walk together by
induction on the fuel. -/
theorem inertWalk (f : Nat) :
    (∀ rules v ctx skip sch, inertB v = true → jsize v < f →
        loopF f rules v ctx skip sch = some (v, sch))
    ∧ (∀ rules xs ctx skip sch, inertElems xs = true → jsizeElems xs < f →
        walkListF f rules xs ctx skip sch = some (xs, sch))
    ∧ (∀ rules allFs suffix accfs ctx skip sch,
        lookupField allFs "." = none →
        (∀ p ∈ suffix, p.1 ≠ ".") →
        inertFields suffix = true → jsizeFields suffix < f →
        walkFieldsF f rules allFs suffix (.obj accfs) ctx skip sch =
          some (.obj (setKeyList accfs suffix), sch)) := by
  induction f with
  | zero =>
    refine ⟨fun _ _ _ _ _ _ h => absurd h (Nat.not_lt_zero _),
      fun _ _ _ _ _ _ h => absurd h (Nat.not_lt_zero _),
      fun _ _ _ _ _ _ _ _ _ _ h => absurd h (Nat.not_lt_zero _)⟩
  | succ f ih =>
    obtain ⟨ihP, ihQ, ihR⟩ := ih
    refine ⟨?_, ?_, ?_⟩
    · intro rules v ctx skip sch hin hsz
      cases v with
      | null => rfl
      | bool b => rfl
      | num n => rfl
      | str s =>
        simp only [inertB, Bool.and_eq_true, Bool.not_eq_true'] at hin
        simp [loopF, hin.1, hin.2]
      | arr xs =>
        simp only [inertB] at hin
        simp only [jsize] at hsz
        have hq := ihQ rules xs ctx skip sch hin (by omega)
        have hflat : flat1 xs = xs :=
          flat1_noArr (fun x hx => (inertElems_props hin x hx).1)
        simp [loopF, hq, hflat]
      | obj fs =>
        simp only [inertB, Bool.and_eq_true, Option.isNone_iff_eq_none] at hin
        obtain ⟨⟨⟨href, hdot⟩, hnd⟩, hif⟩ := hin
        simp only [jsize] at hsz
        have hr := ihR rules fs fs [] ctx skip sch hdot
          (lookupField_none_keys hdot) hif (by omega)
        have hlist : setKeyList [] fs = fs := by
          have := @setKeyList_eq_append fs [] (fun p _ => rfl) hnd
          simpa using this
        simp [loopF, href, hr, hlist]
    · intro rules xs ctx skip sch hin hsz
      cases xs with
      | nil => rfl
      | cons x rest =>
        simp only [inertElems, Bool.and_eq_true, Bool.not_eq_true'] at hin
        simp only [jsizeElems] at hsz
        have hp := ihP rules x ctx skip sch hin.1.2 (by omega)
        have hq := ihQ rules rest ctx skip sch hin.2 (by omega)
        simp [walkListF, hp, hq]
    · intro rules allFs suffix accfs ctx skip sch hdot hdotkeys hif hsz
      cases suffix with
      | nil => rfl
      | cons a rest =>
        obtain ⟨k, v⟩ := a
        have hk : k ≠ "." := hdotkeys (k, v) (List.mem_cons_self _ _)
        simp only [inertFields, Bool.and_eq_true] at hif
        simp only [jsizeFields] at hsz
        have hp := ihP rules v ctx skip sch hif.1 (by omega)
        have hr := ihR rules allFs rest (setKey accfs k v) ctx skip sch hdot
          (fun p hp' => hdotkeys p (List.mem_cons_of_mem _ hp')) hif.2 (by omega)
        simp [walkFieldsF, hk, hdot, optTruthy, hp, setKeyJ, hr, setKeyList]

/-- wfKeeps: once a binding sits in the accumulator and its key does not
occur among the remaining fields, the ordinary-mapping walk (with no "."
member around) carries it unchanged into the output object. -/
theorem wfKeeps {rules : Rules} {allFs : List (String × Json)} {kk : String} {vv : Json}
    (hdot : lookupField allFs "." = none) :
    ∀ (suffix : List (String × Json)) (g : Nat) accfs ctx skip sch out schF,
    (∀ p ∈ suffix, p.1 ≠ ".") →
    lookupField accfs kk = some vv →
    keyMem kk suffix = false →
    walkFieldsF g rules allFs suffix (.obj accfs) ctx skip sch = some (out, schF) →
    ∃ ofs, out = .obj ofs ∧ lookupField ofs kk = some vv := by
  intro suffix
  induction suffix with
  | nil =>
    intro g accfs ctx skip sch out schF _ hacc _ hw
    cases g with
    | zero => simp [walkFieldsF] at hw
    | succ g =>
      simp only [walkFieldsF, Option.some.injEq, Prod.mk.injEq] at hw
      exact ⟨accfs, hw.1.symm, hacc⟩
  | cons a rest ih =>
    intro g accfs ctx skip sch out schF hdk hacc hmem hw
    obtain ⟨k, v⟩ := a
    have hk : k ≠ "." := hdk (k, v) (List.mem_cons_self _ _)
    simp only [keyMem, Bool.or_eq_false_iff] at hmem
    have hkk : kk ≠ k := of_decide_eq_false hmem.1
    cases g with
    | zero => simp [walkFieldsF] at hw
    | succ g =>
      simp only [walkFieldsF, hk, hdot, optTruthy] at hw
      simp only [decide_False, Bool.false_and, Bool.if_false_left,
        Bool.not_false, Bool.true_or] at hw
      cases hl : loopF g rules v ctx skip sch with
      | none => simp [hl] at hw
      | some p =>
        obtain ⟨v', sch1⟩ := p
        simp only [hl] at hw
        exact ih g (setKey accfs k v') ctx skip sch1 out schF
          (fun p hp => hdk p (List.mem_cons_of_mem _ hp))
          (by rw [lookup_setKey_ne hkk.symm]; exact hacc)
          hmem.2 hw

/-- wfPreserves: the ordinary-mapping walk of a mapping with unique keys,
no "." member in scope and a falsy "ref" member produces an object whose
"ref" member still holds the original falsy value. -/
theorem wfPreserves {rules : Rules} {allFs : List (String × Json)}
    (hdot : lookupField allFs "." = none) :
    ∀ (suffix : List (String × Json)) (g : Nat) accfs ctx skip sch out schF v,
    (∀ p ∈ suffix, p.1 ≠ ".") →
    lookupField suffix "ref" = some v →
    isTruthy v = false →
    keyMem "ref" accfs = false →
    nodupKeys suffix = true →
    walkFieldsF g rules allFs suffix (.obj accfs) ctx skip sch = some (out, schF) →
    ∃ ofs, out = .obj ofs ∧ lookupField ofs "ref" = some v := by
  intro suffix
  induction suffix with
  | nil => intro g accfs ctx skip sch out schF v _ href; simp [lookupField] at href
  | cons a rest ih =>
    intro g accfs ctx skip sch out schF v hdk href hfalsy hmem hnd hw
    obtain ⟨k, w⟩ := a
    have hk : k ≠ "." := hdk (k, w) (List.mem_cons_self _ _)
    simp only [nodupKeys, Bool.and_eq_true, Bool.not_eq_true'] at hnd
    cases g with
    | zero => simp [walkFieldsF] at hw
    | succ g =>
      simp only [walkFieldsF, hk, hdot, optTruthy] at hw
      simp only [decide_False, Bool.false_and, Bool.if_false_left,
        Bool.not_false, Bool.true_or] at hw
      by_cases hkr : k = "ref"
      · subst hkr
        have hv : w = v := by
          simpa [lookupField] using href
        subst hv
        cases g with
        | zero => simp [loopF] at hw
        | succ g' =>
          rw [falsyFixed g' rules ctx skip sch hfalsy] at hw
          exact wfKeeps hdot rest (g' + 1) (setKey accfs "ref" w) ctx skip sch out schF
            (fun p hp => hdk p (List.mem_cons_of_mem _ hp))
            lookup_setKey_self hnd.1 hw
      · have href' : lookupField rest "ref" = some v := by
          simpa [lookupField, hkr] using href
        cases hl : loopF g rules w ctx skip sch with
        | none => simp [hl] at hw
        | some p =>
          obtain ⟨w', sch1⟩ := p
          simp only [hl] at hw
          exact ih g (setKey accfs k w') ctx skip sch1 out schF v
            (fun p hp => hdk p (List.mem_cons_of_mem _ hp)) href' hfalsy
            (by rw [keyMem_setKey_ne (fun h => hkr h.symm)]; exact hmem)
            hnd.2 hw

/-! Claim theorems. -/

/-- C1: a deferred-block relative reference resolves against the merged
object, not the raw template: with the spec's template referenced by an
object overriding var1 with "xxxx", the result's valueVar1 is "xxxx"
(and the full output tree is as computed). -/
theorem claimC1_deferred_sees_merged :
    resolveRefsF 40 inDeferred inDeferred [] = some outDeferred
    ∧ absLookup outDeferred ["obj1", "valueVar1"] = some (.str "xxxx") :=
  ⟨rfl, rfl⟩

/-- C2 (counterexample): a template fetched with relative-reference
suppression on (the exact call shape of the ref branch) nevertheless
resolves a relative reference against the caller's context when one is
active: fetching template t = \x7ba:"$./var1"\x7d under context
\x7bvar1:"xxxx"\x7d yields a = "xxxx", not the untouched "$./var1"; the same is
observable end to end through resolveRefs. -/
theorem claimC2_counterexample :
    loopF 10 [] (.str "$t") (some ctxFetch) true schFetch =
      some (.obj [("a", .str "xxxx")], schFetch)
    ∧ resolveRefsF 30 inFetch schFetch [] =
        some (.obj [("var1", .str "xxxx"), ("sub", .obj [("a", .str "xxxx")])])
    ∧ Json.str "xxxx" ≠ Json.str "$./var1" :=
  ⟨rfl, rfl, by intro h; injection h with h'; exact absurd h' (by decide)⟩

/-- C2 (amended): during a template fetch the suppression flag only
keeps "." members as plain keys (they are assigned, not deferred-merged);
relative references themselves stay unresolved only when no context is
available -- with an active caller context they resolve against it, even
inside the fetched template's "." block. -/
theorem claimC2_amended :
    (∀ (f : Nat) (rules : Rules) (allFs : List (String × Json)) (k : String)
        (v : Json) (rest : List (String × Json)) (acc : Json) (ctx : Option Json)
        (sch : Json),
        walkFieldsF (f + 1) rules allFs ((k, v) :: rest) acc ctx true sch =
          match loopF f rules v ctx true sch with
          | none => none
          | some (v', sch1) => walkFieldsF f rules allFs rest (setKeyJ acc k v') ctx true sch1)
    ∧ loopF 10 [] (.str "$t") none true schFetch =
        some (.obj [("a", .str "$./var1")], schFetch)
    ∧ loopF 15 [] (.str "$t2") none true schFetchDot = some (tmplSpec, schFetchDot)
    ∧ loopF 15 [] (.str "$t2") (some ctxFetch) true schFetchDot =
        some (.obj [("var1", .str "zzzzz"), ("var2", .str "33333"),
          (".", .obj [("valueVar1", .str "xxxx")])], schFetchDot) := by
  refine ⟨?_, rfl, rfl, rfl⟩
  intro f rules allFs k v rest acc ctx sch
  simp [walkFieldsF]

/-- C3: template expansion with overrides over the values schema gives
exactly \x7bvalue1:1, value2:2, value3:80, extra:5\x7d: overrides win and extra
sibling keys pass through. -/
theorem claimC3_override_expansion :
    resolveRefsF 30
        (.obj [("ref", .str "$values"), ("extra", .num 5), ("value3", .num 80)])
        schValues [] =
      some (.obj [("value1", .num 1), ("value2", .num 2), ("value3", .num 80),
        ("extra", .num 5)]) := rfl

/-- C4: an absolute reference string matching no rule whose path fails to
resolve in the schema is returned unchanged (the walker never throws:
both a thrown member read and an undefined result are absorbed into the
lookup failure), and concretely \x7ba:"$nope/missing"\x7d resolves to itself. -/
theorem claimC4_missing_path (f : Nat) (sch : Json) (s : String)
    (ctx : Option Json) (skip : Bool)
    (h1 : jsStartsWith s "$" = true) (h2 : jsStartsWith s interpStart = false)
    (h3 : jsStartsWith s "$./" = false)
    (h4 : absLookup sch (jsSplit1 (s.drop 1) '/') = none) :
    loopF (f + 2) [] (.str s) ctx skip sch = some (.str s, sch)
    ∧ resolveRefsF 8 (.obj [("a", .str "$nope/missing")])
        (.obj [("a", .str "$nope/missing")]) [] =
        some (.obj [("a", .str "$nope/missing")]) := by
  refine ⟨?_, rfl⟩
  simp [loopF, processRulesF, lookupRule, h1, h2, h3, h4]

/-- C4 witness: the theorem applied to the concrete failing reference
"$nope/missing" over an empty schema. -/
theorem claimC4_witness :
    loopF 2 [] (.str "$nope/missing") none false (.obj []) =
      some (.str "$nope/missing", .obj []) :=
  (claimC4_missing_path 0 (.obj []) "$nope/missing" none false rfl rfl rfl rfl).1

/-- C5 (counterexample): with a truthy condition ($flag is true) and a
found branch resolving to the falsy 0 ($zero), the if task returns the
default 99, not the resolved found branch 0 -- the claim that a truthy
condition always yields the resolved found branch fails. -/
theorem claimC5_counterexample :
    resolveRefsFullF 12 (.str "$check") schIfTask rulesIfTask =
      some (.num 99, schIfTask)
    ∧ rawGet schIfTask (jsSplit1 ("$flag".drop 1) '/') = some (some (.bool true))
    ∧ isTruthy (.bool true) = true
    ∧ loopF 8 rulesIfTask (.str "$zero") none false schIfTask =
        some (.num 0, schIfTask)
    ∧ Json.num 99 ≠ Json.num 0 :=
  ⟨rfl, rfl, rfl, rfl, by intro h; injection h with h'; omega⟩

/-- C5 (amended): the if task returns the resolved found branch only
when both the raw condition lookup and the resolved found branch are
truthy; a truthy condition with a falsy resolved found branch, like a
falsy condition, yields the default branch (JavaScript's
(cond && loop(found)) || default). -/
theorem claimC5_amended (f : Nat) (trig d : String) (found defv : Json)
    (sch : Json) (ctx : Option Json) (skip : Bool) (c : Json)
    (h1 : jsStartsWith trig "$" = true) (h2 : jsStartsWith trig interpStart = false)
    (hc : rawGet sch (jsSplit1 (d.drop 1) '/') = some (some c)) :
    (isTruthy c = false →
        loopF (f + 2) (ifRule trig d found defv) (.str trig) ctx skip sch =
          some (defv, sch))
    ∧ (∀ (v sch1 : Json), isTruthy c = true →
        loopF f (ifRule trig d found defv) found none false sch = some (v, sch1) →
        loopF (f + 2) (ifRule trig d found defv) (.str trig) ctx skip sch =
          some (if isTruthy v then v else defv, sch1)) := by
  constructor
  · intro hcf
    simp [loopF, processRulesF, ifRule, lookupRule, h1, h2, hc, optTruthy, hcf]
  · intro v sch1 hct hl
    simp only [ifRule] at hl
    simp [loopF, processRulesF, ifRule, lookupRule, h1, h2, hc, optTruthy, hct, hl]

/-- C5 witness: the amended theorem applied to the concrete scenario
(truthy $flag, found branch resolving to falsy 0, default 99). -/
theorem claimC5_witness :
    isTruthy (Json.bool true) = true
    ∧ loopF 10 rulesIfTask (.str "$check") none false schIfTask =
        some (.num 99, schIfTask) := by
  refine ⟨rfl, ?_⟩
  have h := (claimC5_amended 8 "$check" "$flag" (.str "$zero") (.num 99)
    schIfTask none false (.bool true) rfl rfl rfl).2 (.num 0) schIfTask rfl rfl
  simpa using h

/-- C6 (counterexample): after a call whose rules trigger iterate with
item name "user" on a schema that already had a member named "user", the
caller's schema has lost that member: it was "original" before the call
and is absent afterwards. -/
theorem claimC6_counterexample :
    resolveRefsFullF 30 (.str "$usersOut") schIter rulesIter =
      some (outIter, schIterClean)
    ∧ getMember schIter "user" = some (.str "original")
    ∧ getMember schIterClean "user" = none :=
  ⟨rfl, rfl, rfl⟩

/-- C6 (amended): the iterate task removes its per-item binding by
deletion, so after the call the item key is absent from the schema: a
schema without a prior member of that name is restored exactly, but a
pre-existing member is deleted, not restored. -/
theorem claimC6_amended :
    resolveRefsFullF 30 (.str "$usersOut") schIter rulesIter =
      some (outIter, eraseKeyJ schIter "user")
    ∧ resolveRefsFullF 30 (.str "$usersOut") schIterClean rulesIter =
        some (outIter, schIterClean)
    ∧ getMember (eraseKeyJ schIter "user") "user" = none :=
  ⟨rfl, rfl, rfl⟩

/-- C7 (counterexample): idempotence fails even though the first result
carries no reference tokens: resolving \x7bref:"$t", ".":\x7bfoo:1\x7d\x7d leaves the
"." member in the token-free output (the expander never walks merged
overrides), and a second resolution interprets and merges it away. -/
theorem claimC7_counterexample :
    resolveRefsF 30 inIdem schIdem [] = some outIdem1
    ∧ tokensFree outIdem1 = true
    ∧ resolveRefsF 30 outIdem1 schIdem [] = some outIdem2
    ∧ outIdem2 ≠ outIdem1 :=
  ⟨rfl, rfl, rfl, by
    intro h
    exact absurd (congrArg jsonStringify h) (by decide)⟩

/-- C7 (amended): resolveRefs is idempotent on inert results: when the
first resolution yields a tree with no reference tokens and additionally
no "." keys, no "ref" members, no nested sequences and unique mapping
keys, a second resolution (with fuel above the tree's size) returns it
unchanged. -/
theorem claimC7_amended (f g : Nat) (x sch v : Json)
    (h1 : resolveRefsF f x sch [] = some v)
    (h2 : inertB v = true) (h3 : jsize v < g) :
    resolveRefsF g v sch [] = resolveRefsF f x sch [] := by
  have hp := (inertWalk g).1 [] v none false sch h2 h3
  rw [h1]
  simp [resolveRefsF, resolveRefsFullF, hp]

/-- C7 witness: the amended theorem applied to a concrete input whose
resolution \x7ba:2\x7d is inert. -/
theorem claimC7_witness :
    resolveRefsF 10 (.obj [("a", .num 2)]) (.obj [("b", .num 2)]) [] =
      resolveRefsF 8 (.obj [("a", .str "$b")]) (.obj [("b", .num 2)]) [] :=
  claimC7_amended 8 10 (.obj [("a", .str "$b")]) (.obj [("b", .num 2)])
    (.obj [("a", .num 2)]) rfl rfl (by decide)

/-- C9: the walker maps resolution over a sequence and splices exactly
one level of resulting sequences in place, preserving order (flat1 is
the one-level splice), and concretely ["$a","$b"] over
\x7ba:[1,2], b:3\x7d resolves to the spliced [1,2,3]. -/
theorem claimC9_sequence_splice :
    (∀ (f : Nat) (rules : Rules) (xs : List Json) (ctx : Option Json)
        (skip : Bool) (sch : Json),
        loopF (f + 1) rules (.arr xs) ctx skip sch =
          (walkListF f rules xs ctx skip sch).map
            (fun p => (Json.arr (flat1 p.1), p.2)))
    ∧ (∀ rs : List Json,
        flat1 rs = rs.flatMap (fun r => match r with | .arr ys => ys | r => [r]))
    ∧ resolveRefsF 12 (.arr [.str "$a", .str "$b"]) schSplice [] =
        some (.arr [.num 1, .num 2, .num 3]) := by
  refine ⟨?_, ?_, rfl⟩
  · intro f rules xs ctx skip sch
    cases h : walkListF f rules xs ctx skip sch with
    | none => simp [loopF, h]
    | some p =>
      obtain ⟨rs, sch1⟩ := p
      simp [loopF, h]
  · intro rs
    induction rs with
    | nil => rfl
    | cons x rest ih => cases x <;> simp [flat1, ih, List.flatMap_cons]

/-- C10 (counterexample): a mapping with the falsy ref member 0 and a "."
member whose block carries ref:"" resolves to \x7bref:""\x7d -- no template
expansion happens, but the deferred merge overwrites the ref member, so
"the ref member is preserved" fails as stated. -/
theorem claimC10_counterexample :
    resolveRefsF 20 inFalsyRef (.obj []) [] = some (.obj [("ref", .str "")])
    ∧ isTruthy (.num 0) = false
    ∧ Json.str "" ≠ Json.num 0 :=
  ⟨rfl, rfl, fun h => Json.noConfusion h⟩

/-- C10 (amended): a falsy ref member never triggers template expansion
-- the mapping takes the ordinary walk -- and when the mapping moreover
has no "." member and unique keys, the ref member survives into the
output with its falsy value unchanged. -/
theorem claimC10_amended (f : Nat) (rules : Rules) (fields : List (String × Json))
    (v : Json) (ctx : Option Json) (skip : Bool) (sch : Json)
    (h1 : lookupField fields "ref" = some v) (h2 : isTruthy v = false) :
    (loopF (f + 1) rules (.obj fields) ctx skip sch =
        walkFieldsF f rules fields fields (.obj []) ctx skip sch)
    ∧ (lookupField fields "." = none → nodupKeys fields = true →
        ∀ (out schF : Json),
        loopF (f + 1) rules (.obj fields) ctx skip sch = some (out, schF) →
        ∃ ofs, out = .obj ofs ∧ lookupField ofs "ref" = some v) := by
  have hmain : loopF (f + 1) rules (.obj fields) ctx skip sch =
      walkFieldsF f rules fields fields (.obj []) ctx skip sch := by
    simp [loopF, h1, h2]
  refine ⟨hmain, ?_⟩
  intro hdot hnd out schF hw
  rw [hmain] at hw
  exact wfPreserves hdot fields f [] ctx skip sch out schF v
    (lookupField_none_keys hdot) h1 h2 rfl hnd hw

/-- C10 witness: the amended theorem applied to the concrete mapping
\x7bref:0, a:7\x7d, whose walk keeps ref = 0 in the output. -/
theorem claimC10_witness :
    ∃ ofs, Json.obj [("ref", Json.num 0), ("a", Json.num 7)] = Json.obj ofs
      ∧ lookupField ofs "ref" = some (Json.num 0) :=
  (claimC10_amended 4 [] [("ref", Json.num 0), ("a", Json.num 7)] (Json.num 0)
    none false (.obj []) rfl rfl).2 rfl rfl
    (Json.obj [("ref", Json.num 0), ("a", Json.num 7)]) (.obj []) rfl

end DblUtils
